import Mathlib

/-!
Verification of the queueing and trajectory-storage core of the
`pytorch_seed_rl` repository against its natural-language specification.

The development shallowly embeds the relevant Python code:

* `data_structures/trajectory_store.py` — `TrajectoryStore.__init__`,
  `_new_trajectory`, `_new_states`, `_reset_trajectory`, `_reset_states`,
  `add_to_entry`, `_drop`.  Python dict/tensor objects are mutated in place
  and `_drop` enqueues a `copy.deepcopy`, so object identity matters: the
  store is modelled with an explicit address heap (`heap : Nat → Trajectory`
  plus an allocation bound `heapSize`).  The live slot of source id `i` is
  the object at address `i` (`internal_store[i]` in the source, which is
  never rebound, only mutated in place); every deep copy made by `_drop`
  is a freshly allocated address `≥ num_keys`.
* `agents/learner.py` — `_check_dead_queues`, the shutdown recomputation of
  `_loop`, and the drain/enqueue logic of `prefetch`.
* `agents/learner.py::process_batch` together with `agents/actor.py::act`
  for the request/response round trip.

Tensor payloads are abstracted to the fields the control flow inspects
(`done`, `episode_step`) plus one opaque observation field; a per-step
record stands for one time-slice across all keys of the state dict.
-/

namespace PytorchSeedRL

/-- One evaluated environment step, i.e. one time-slice of the state dict
handed to `TrajectoryStore.add_to_entry` (`state` in the source).  `obs`
stands in for the remaining tensor fields (frame, action, reward, ...). -/
structure StepState where
  obs : Int
  done : Bool
  episode_step : Int
  deriving Repr, DecidableEq, Inhabited

/-- The all-zeroes step used by `_new_states` / `_reset_states`
(`zero_obs` repeated, every tensor filled with 0). -/
def zeroState : StepState := { obs := 0, done := false, episode_step := 0 }

/-- One trajectory dict as built by `_new_trajectory`: sequence number,
completion flag, current length, and the fixed-length per-step buffers
(`states`, one entry per time index). -/
structure Trajectory where
  global_trajectory_number : Nat
  complete : Bool
  current_length : Nat
  states : List StepState
  deriving Repr, DecidableEq, Inhabited

/-- A fresh trajectory value: the result of `_new_trajectory` (with the
given sequence number) and likewise the post-state of `_reset_trajectory`
(`complete := False`, `current_length := 0`, all state tensors zeroed). -/
def freshTrajectory (max_trajectory_length n : Nat) : Trajectory :=
  { global_trajectory_number := n
    complete := false
    current_length := 0
    states := List.replicate max_trajectory_length zeroState }

/-- Python exceptions that the modelled code can raise. -/
inductive PyError where
  | indexError
  | overflowError
  deriving Repr, DecidableEq

/-- `collections.deque(maxlen := cap).append x`: append on the right and,
when the deque is at capacity, silently discard from the left.  Stated for
arbitrary lists: keep the last `cap` elements of `q ++ [x]`. -/
def dequeAppend {α : Type} (cap : Nat) (q : List α) (x : α) : List α :=
  List.drop (q.length + 1 - cap) (q ++ [x])

/-- The last `cap` elements of a list (what a `deque(maxlen := cap)`
retains of the stream appended to it). -/
def lastN {α : Type} (cap : Nat) (l : List α) : List α :=
  List.drop (l.length - cap) l

/-- `TrajectoryStore` (data_structures/trajectory_store.py).  `heap` is the
object heap: address `i < num_keys` holds the live slot `internal_store[i]`,
addresses `num_keys ≤ a < heapSize` hold the deep copies made by `_drop`.
`drop_off_queue` stores addresses of those copies (it is a
`deque(maxlen := num_keys)`). -/
structure TrajectoryStore where
  max_trajectory_length : Nat
  num_keys : Nat
  trajectory_counter : Nat
  heapSize : Nat
  heap : Nat → Trajectory
  drop_off_queue : List Nat

namespace TrajectoryStore

/-- `TrajectoryStore.__init__`: `num_keys` live slots built by
`_new_trajectory` (slot `i` receives sequence number `i`, the counter is
incremented once per slot), an empty drop-off deque with
`maxlen = num_keys`. -/
def init (num_keys max_trajectory_length : Nat) : TrajectoryStore :=
  { max_trajectory_length := max_trajectory_length
    num_keys := num_keys
    trajectory_counter := num_keys
    heapSize := num_keys
    heap := fun a => freshTrajectory max_trajectory_length a
    drop_off_queue := [] }

/-- The write-and-bookkeeping part of `add_to_entry` (lines 81–87): write
the step into every state buffer at index `current_length`, increment
`current_length`, and set `complete` when `state.done and
state.episode_step > 0`. -/
def appendStep (t : Trajectory) (st : StepState) : Trajectory :=
  { t with
    states := t.states.set t.current_length st
    current_length := t.current_length + 1
    complete := t.complete || (st.done && decide (0 < st.episode_step)) }

/-- The drop condition of `add_to_entry` line 88:
`trajectory["complete"] or current_length == max_trajectory_length`. -/
def completeOrFull (s : TrajectoryStore) (t : Trajectory) : Bool :=
  t.complete || decide (t.current_length = s.max_trajectory_length)

/-- Store after the non-dropping branch of `add_to_entry`: the slot object
at address `i` is mutated in place to the appended trajectory. -/
def plainStore (s : TrajectoryStore) (i : Nat) (st : StepState) : TrajectoryStore :=
  { s with heap := Function.update s.heap i (appendStep (s.heap i) st) }

/-- Store after the dropping branch of `add_to_entry`: `_drop` allocates a
deep copy of the appended slot at the fresh address `heapSize` and appends
that address to the drop-off deque, then `_reset_trajectory i` bumps the
counter and reinitialises the slot object in place. -/
def dropStore (s : TrajectoryStore) (i : Nat) (st : StepState) : TrajectoryStore :=
  { s with
    trajectory_counter := s.trajectory_counter + 1
    heapSize := s.heapSize + 1
    heap := Function.update
      (Function.update s.heap s.heapSize (appendStep (s.heap i) st)) i
      (freshTrajectory s.max_trajectory_length (s.trajectory_counter + 1))
    drop_off_queue := dequeAppend s.num_keys s.drop_off_queue s.heapSize }

/-- `TrajectoryStore.add_to_entry(i, state)` (lines 76–95).  When
`current_length` is not below `max_trajectory_length`, the tensor indexing
`states[key][current_length]` raises `IndexError` (index out of bounds for
a buffer of size `max_trajectory_length`); otherwise the step is appended
and, if the trajectory is complete or now full, `_drop` plus
`_reset_trajectory` run. -/
def add_to_entry (s : TrajectoryStore) (i : Nat) (st : StepState) :
    Except PyError TrajectoryStore :=
  if (s.heap i).current_length < s.max_trajectory_length then
    if completeOrFull s (appendStep (s.heap i) st) then
      Except.ok (dropStore s i st)
    else
      Except.ok (plainStore s i st)
  else
    Except.error PyError.indexError

/-- The drop-off queue as a list of trajectory values (oldest first). -/
def queueVals (s : TrajectoryStore) : List Trajectory :=
  s.drop_off_queue.map s.heap

/-- Well-formedness of a store state, established by `init` and preserved
by `add_to_entry`: positive rollout length, at least `num_keys` allocated
addresses, a drop-off queue within its capacity holding only copy
addresses, sequence numbers bounded by the counter, and every live slot
strictly below capacity, incomplete, with a buffer of the configured
length. -/
def WF (s : TrajectoryStore) : Prop :=
  0 < s.max_trajectory_length ∧
  s.num_keys ≤ s.heapSize ∧
  s.drop_off_queue.length ≤ s.num_keys ∧
  (∀ a ∈ s.drop_off_queue, s.num_keys ≤ a ∧ a < s.heapSize) ∧
  (∀ a, a < s.heapSize → (s.heap a).global_trajectory_number ≤ s.trajectory_counter) ∧
  (∀ i, i < s.num_keys →
    (s.heap i).current_length < s.max_trajectory_length ∧
    (s.heap i).complete = false ∧
    (s.heap i).states.length = s.max_trajectory_length)

instance (s : TrajectoryStore) : Decidable (WF s) := by
  unfold WF; infer_instance

/-- The spec predicate for a drop: `add_to_entry` pushes a trajectory
exactly when the appended state is a genuine terminal step
(`done` with `episode_step > 0`) or the append fills the buffer. -/
def pushCondition (s : TrajectoryStore) (i : Nat) (st : StepState) : Prop :=
  (st.done = true ∧ 0 < st.episode_step) ∨
    (s.heap i).current_length + 1 = s.max_trajectory_length

instance (s : TrajectoryStore) (i : Nat) (st : StepState) :
    Decidable (pushCondition s i st) := by
  unfold pushCondition; infer_instance

/-- A sequence of `add_to_entry` calls for one source id. -/
def runCalls (i : Nat) : TrajectoryStore → List StepState →
    Except PyError TrajectoryStore
  | s, [] => Except.ok s
  | s, st :: rest =>
    match s.add_to_entry i st with
    | Except.ok s1 => runCalls i s1 rest
    | Except.error e => Except.error e

/-- `runCalls` together with the list of trajectory values pushed onto the
drop-off queue along the way (oldest first). -/
def runDrops (i : Nat) : TrajectoryStore → List StepState →
    Except PyError (TrajectoryStore × List Trajectory)
  | s, [] => Except.ok (s, [])
  | s, st :: rest =>
    match s.add_to_entry i st with
    | Except.error e => Except.error e
    | Except.ok s1 =>
      match runDrops i s1 rest with
      | Except.error e => Except.error e
      | Except.ok (s2, ds) =>
        Except.ok (s2,
          (if completeOrFull s (appendStep (s.heap i) st) then
            [appendStep (s.heap i) st]
          else []) ++ ds)

/-- The value `current_length` must take after a sequence of calls: each
call either resets it to `0` (genuine terminal step, or the counter would
reach the maximum) or increments it — i.e. it counts the calls since the
last reset. -/
def countSinceReset (max : Nat) : Nat → List StepState → Nat
  | c, [] => c
  | c, st :: rest =>
    countSinceReset max
      (if (st.done && decide (0 < st.episode_step)) || decide (c + 1 = max)
        then 0 else c + 1) rest

end TrajectoryStore

/-- A store state whose live slot already has `current_length` equal to the
configured maximum — reachable only by violating the store's own
sequencing, the situation claim C6 describes. -/
def fullSlotStore : TrajectoryStore :=
  { max_trajectory_length := 2
    num_keys := 1
    trajectory_counter := 1
    heapSize := 1
    heap := fun _ =>
      { global_trajectory_number := 0
        complete := false
        current_length := 2
        states := List.replicate 2 zeroState }
    drop_off_queue := [] }

/-! ### The learner's watchdog and shutdown bookkeeping (agents/learner.py) -/

/-- The learner state read and written by `_check_dead_queues` and by the
shutdown recomputation at the end of `_loop`: the stall counter, the
previous snapshot of the three depths, and the global shutdown flag. -/
structure WatchdogState where
  dead_counter : Nat
  queue_batches_old : Nat
  queue_drop_off_old : Nat
  queue_rpcs_old : Nat
  shutdown : Bool
  deriving Repr, DecidableEq

/-- `Learner._check_dead_queues` (learner.py lines 312–331): if the three
observed depths equal the stored snapshot, increment `dead_counter`;
otherwise zero it and store the new snapshot.  Then, if the counter
exceeds `dead_threshold`, set the global shutdown flag. -/
def check_dead_queues (w : WatchdogState)
    (queue_batches queue_drop_off queue_rpcs dead_threshold : Nat) : WatchdogState :=
  let w1 :=
    if w.queue_batches_old = queue_batches ∧ w.queue_drop_off_old = queue_drop_off ∧
        w.queue_rpcs_old = queue_rpcs then
      { w with dead_counter := w.dead_counter + 1 }
    else
      { w with
        dead_counter := 0
        queue_batches_old := queue_batches
        queue_drop_off_old := queue_drop_off
        queue_rpcs_old := queue_rpcs }
  if dead_threshold < w1.dead_counter then { w1 with shutdown := true } else w1

/-- `n` consecutive watchdog checks during which the three observed depths
stay constant at `(qb, qd, qr)` — the stalled-pipeline scenario. -/
def runWatchdog (qb qd qr dead_threshold : Nat) (w : WatchdogState) :
    Nat → WatchdogState
  | 0 => w
  | n + 1 => check_dead_queues (runWatchdog qb qd qr dead_threshold w n)
      qb qd qr dead_threshold

/-- The three limit tests of `_loop` lines 307–309.  Python's chained
comparison `a > b > 0` is `a > b ∧ b > 0`.  `runtime`/`max_time` are
floats in the source; only their ordering is used, modelled on `Int`. -/
def shutdown_limits (training_epoch max_epoch training_steps total_steps
    runtime max_time : Int) : Bool :=
  (decide (max_epoch < training_epoch) && decide (0 < max_epoch))
    || (decide (total_steps < training_steps) && decide (0 < total_steps))
    || (decide (max_time < runtime) && decide (0 < max_time))

/-- What one `_loop` iteration observes: the three depths the watchdog
compares and the progress counters the limit tests read. -/
structure LoopObs where
  queue_batches : Nat
  queue_drop_off : Nat
  queue_rpcs : Nat
  training_epoch : Int
  training_steps : Int
  runtime : Int
  deriving Repr, DecidableEq

/-- The shutdown bookkeeping of one `_loop` iteration (lines 303–310): run
`_check_dead_queues`, then recompute `self.shutdown` as the disjunction of
the three limit tests and its previous value. -/
def loop_iteration_shutdown (dead_threshold : Nat)
    (max_epoch total_steps max_time : Int) (w : WatchdogState) (o : LoopObs) :
    WatchdogState :=
  let w1 := check_dead_queues w o.queue_batches o.queue_drop_off o.queue_rpcs
    dead_threshold
  { w1 with
    shutdown := shutdown_limits o.training_epoch max_epoch o.training_steps
      total_steps o.runtime max_time || w1.shutdown }

/-- A sequence of `_loop` iterations with the given per-iteration
observations. -/
def run_loop_iterations (dead_threshold : Nat)
    (max_epoch total_steps max_time : Int) :
    WatchdogState → List LoopObs → WatchdogState
  | w, [] => w
  | w, o :: rest => run_loop_iterations dead_threshold max_epoch total_steps
      max_time (loop_iteration_shutdown dead_threshold max_epoch total_steps
        max_time w o) rest

/-! ### The prefetch task (agents/learner.py, `Learner.prefetch`) -/

/-- How one pass through the enqueue section of `prefetch` ends. -/
inductive EnqueueOutcome where
  | enqueued
  | sleptOnce
  | dropReturn
  deriving Repr, DecidableEq

/-- The enqueue section of `Learner.prefetch` (learner.py lines 605–614),
with its control flow kept verbatim: `counter` is initialised to `0` and
immediately tested by the `elif`, which sleeps `waiting_time` once and then
falls through to the next `while` iteration — the assembled batch is
dropped without the enqueue ever being re-attempted, and the
`else: return` branch (the intended drop-after-`max_tries`) is unreachable
whenever `max_tries > 0`. -/
def prefetch_enqueue {α : Type} (batch_queue : List α) (maxlen : Nat)
    (batch : α) (max_tries : Nat) : List α × EnqueueOutcome :=
  let counter := 0
  if batch_queue.length < maxlen then
    (batch_queue ++ [batch], EnqueueOutcome.enqueued)
  else if counter < max_tries then
    (batch_queue, EnqueueOutcome.sleptOnce)
  else
    (batch_queue, EnqueueOutcome.dropReturn)

/-- The `try: self.log_trajectory(t) except Exception as e: print(e)` of
`prefetch`: run the logging call and swallow any failure. -/
def try_log (logf : Trajectory → Except Unit Unit) (t : Trajectory) : Unit :=
  match logf t with
  | Except.ok u => u
  | Except.error _ => ()

/-- The `for _ in range(batchsize_training)` pop loop of `prefetch`
(lines 594–600): `popleft` each trajectory (`IndexError` on an empty
deque), attempt its log under try/except, and collect it. -/
def pop_and_log (logf : Trajectory → Except Unit Unit) :
    Nat → List Trajectory → Except PyError (List Trajectory × List Trajectory)
  | 0, q => Except.ok ([], q)
  | _ + 1, [] => Except.error PyError.indexError
  | n + 1, t :: rest =>
    let _u := try_log logf t
    match pop_and_log logf n rest with
    | Except.error e => Except.error e
    | Except.ok (popped, q') => Except.ok (t :: popped, q')

/-- The guarded drain step of `prefetch` (lines 592–600): pop
`batchsize_training` trajectories only when at least that many are queued,
otherwise pop nothing. -/
def prefetch_pop (q : List Trajectory) (batchsize_training : Nat)
    (logf : Trajectory → Except Unit Unit) :
    Except PyError (List Trajectory × List Trajectory) :=
  if batchsize_training ≤ q.length then pop_and_log logf batchsize_training q
  else Except.ok ([], q)

/-! ### The inference round trip (learner.py `process_batch`, actor.py `act`) -/

/-- The result dict of `Learner.process_batch` (learner.py lines 410–413):
for the `i`-th caller id, the action at batch position `i` of the batched
model output.  The model is an opaque batched evaluator. -/
def process_batch (eval_model : List Int → List Int) (caller_ids : List Nat)
    (obs : List Int) : List (Nat × Int) :=
  (List.range caller_ids.length).map
    (fun idx => (caller_ids.getD idx 0, (eval_model obs).getD idx 0))

/-- Modelled from the spec: the response fan-out of the batched-inference
callee (`rpc_callee.py`, which is not under `src/`) — "Return to each
caller exactly the action meant for its source id, plus the global
shutdown flag and its own source id". -/
def fan_out (results : List (Nat × Int)) (shutdown : Bool) :
    List (Nat × (Int × Bool × Nat)) :=
  results.map (fun p => (p.1, (p.2, shutdown, p.1)))

/-- The identity assertion of `Actor.act` (actor.py line 79):
`assert self._gen_env_id(i) == answer_id`. -/
def act_assert (own_id : Nat) (answer : Int × Bool × Nat) : Bool :=
  decide (answer.2.2 = own_id)

/-- Concrete trajectories used to exercise the prefetch drain. -/
def sampleTrajectories : List Trajectory :=
  [freshTrajectory 1 0, freshTrajectory 1 1, freshTrajectory 1 2]

/-- A logging callback that always fails, exercising the try/except. -/
def failingLog : Trajectory → Except Unit Unit := fun _ => Except.error ()

/-! ### Generic lemmas about bounded deques -/

theorem lastN_of_le {α : Type} {cap : Nat} {l : List α} (h : l.length ≤ cap) :
    lastN cap l = l := by
  simp [lastN, Nat.sub_eq_zero_of_le h]

theorem dequeAppend_eq_lastN {α : Type} (cap : Nat) (q : List α) (x : α) :
    dequeAppend cap q x = lastN cap (q ++ [x]) := by
  simp [dequeAppend, lastN]

theorem lastN_length {α : Type} (cap : Nat) (l : List α) :
    (lastN cap l).length = min cap l.length := by
  simp [lastN]; omega

theorem lastN_idem_append {α : Type} (cap : Nat) (l m : List α) :
    lastN cap (lastN cap l ++ m) = lastN cap (l ++ m) := by
  rcases Nat.le_total l.length cap with h | h
  · rw [lastN_of_le h]
  · unfold lastN
    rw [List.drop_append_eq_append_drop, List.drop_append_eq_append_drop,
      List.drop_drop]
    simp only [List.length_append, List.length_drop]
    have h1 : l.length - cap + (l.length - (l.length - cap) + m.length - cap)
        = l.length + m.length - cap := by omega
    have h2 : l.length - (l.length - cap) + m.length - cap
          - (l.length - (l.length - cap))
        = l.length + m.length - cap - l.length := by omega
    rw [h1, h2]

theorem map_dequeAppend {α β : Type} (f : α → β) (cap : Nat) (q : List α) (x : α) :
    (dequeAppend cap q x).map f = dequeAppend cap (q.map f) (f x) := by
  simp [dequeAppend, List.map_drop]

namespace TrajectoryStore

/-! ### Helper lemmas about `add_to_entry` -/

theorem add_to_entry_eq {s : TrajectoryStore} {i : Nat} {st : StepState}
    (h : (s.heap i).current_length < s.max_trajectory_length) :
    s.add_to_entry i st =
      Except.ok (if completeOrFull s (appendStep (s.heap i) st) then
        dropStore s i st else plainStore s i st) := by
  unfold add_to_entry
  rw [if_pos h]
  by_cases hc : completeOrFull s (appendStep (s.heap i) st) = true
  · rw [if_pos hc, if_pos hc]
  · rw [if_neg hc, if_neg hc]

theorem completeOrFull_iff {s : TrajectoryStore} {i : Nat} {st : StepState}
    (hc : (s.heap i).complete = false) :
    completeOrFull s (appendStep (s.heap i) st) = true ↔ pushCondition s i st := by
  simp [completeOrFull, appendStep, pushCondition, hc]

theorem WF.init {num_keys max_trajectory_length : Nat}
    (h : 0 < max_trajectory_length) :
    WF (TrajectoryStore.init num_keys max_trajectory_length) := by
  refine ⟨h, le_refl _, by simp [TrajectoryStore.init], by simp [TrajectoryStore.init],
    ?_, ?_⟩
  · intro a ha
    simpa [TrajectoryStore.init, freshTrajectory] using Nat.le_of_lt ha
  · intro j _
    simpa [TrajectoryStore.init, freshTrajectory] using h

/-- `add_to_entry` succeeds on a well-formed store, preserves well-formedness
and the configuration fields, and never shrinks the heap. -/
theorem WF.add {s : TrajectoryStore} {i : Nat} (st : StepState)
    (hwf : WF s) (hi : i < s.num_keys) :
    ∃ s', s.add_to_entry i st = Except.ok s' ∧ WF s' ∧
      s'.num_keys = s.num_keys ∧
      s'.max_trajectory_length = s.max_trajectory_length ∧
      s.heapSize ≤ s'.heapSize := by
  obtain ⟨hml, hnk, hqlen, hqmem, hnum, hslot⟩ := hwf
  obtain ⟨hcl, hcomp, hlen⟩ := hslot i hi
  rw [add_to_entry_eq hcl]
  by_cases hcond : completeOrFull s (appendStep (s.heap i) st) = true
  · refine ⟨dropStore s i st, by rw [if_pos hcond], ?_, rfl, rfl, Nat.le_succ _⟩
    refine ⟨hml, Nat.le_succ_of_le hnk, ?_, ?_, ?_, ?_⟩
    · simp [dropStore, dequeAppend]; omega
    · intro a ha
      simp only [dropStore, dequeAppend] at ha ⊢
      have ha' := List.mem_of_mem_drop ha
      rcases List.mem_append.mp ha' with h | h
      · exact ⟨(hqmem a h).1, Nat.lt_succ_of_lt (hqmem a h).2⟩
      · simp only [List.mem_singleton] at h
        subst h
        exact ⟨hnk, Nat.lt_succ_self _⟩
    · intro a ha
      simp only [dropStore]
      by_cases hai : a = i
      · subst hai
        simp [Function.update_same, freshTrajectory]
      · rw [Function.update_noteq hai]
        by_cases hah : a = s.heapSize
        · subst hah
          rw [Function.update_same]
          exact Nat.le_succ_of_le (hnum i (Nat.lt_of_lt_of_le hi hnk))
        · rw [Function.update_noteq hah]
          have : a < s.heapSize := by
            simp only [dropStore] at ha; omega
          exact Nat.le_succ_of_le (hnum a this)
    · intro j hj
      simp only [dropStore] at hj ⊢
      by_cases hji : j = i
      · subst hji
        simp [Function.update_same, freshTrajectory, hml]
      · rw [Function.update_noteq hji,
          Function.update_noteq (by omega : j ≠ s.heapSize)]
        exact hslot j hj
  · refine ⟨plainStore s i st, by rw [if_neg hcond], ?_, rfl, rfl, le_refl _⟩
    have hcond' : completeOrFull s (appendStep (s.heap i) st) = false :=
      Bool.eq_false_iff.mpr hcond
    simp only [completeOrFull, appendStep, Bool.or_eq_false_iff,
      decide_eq_false_iff_not] at hcond'
    refine ⟨hml, hnk, hqlen, hqmem, ?_, ?_⟩
    · intro a ha
      simp only [plainStore] at ha ⊢
      by_cases hai : a = i
      · subst hai
        simp only [Function.update_same, appendStep]
        exact hnum a (Nat.lt_of_lt_of_le hi hnk)
      · rw [Function.update_noteq hai]
        exact hnum a ha
    · intro j hj
      simp only [plainStore] at hj ⊢
      by_cases hji : j = i
      · subst hji
        simp only [Function.update_same, appendStep, List.length_set]
        refine ⟨?_, ?_, hlen⟩
        · have := hcond'.2
          simp only [appendStep] at this
          omega
        · have := hcond'.1
          simp only [appendStep] at this
          simpa using this
      · rw [Function.update_noteq hji]
        exact hslot j hj

/-- Frame property of one call: addresses other than the live slot `i` and
the fresh copy address are untouched. -/
theorem add_to_entry_frame {s s' : TrajectoryStore} {i : Nat} {st : StepState}
    (hwf : WF s) (hi : i < s.num_keys) {a : Nat}
    (ha1 : s.num_keys ≤ a) (ha2 : a < s.heapSize)
    (h : s.add_to_entry i st = Except.ok s') :
    s'.heap a = s.heap a := by
  obtain ⟨hml, hnk, hqlen, hqmem, hnum, hslot⟩ := hwf
  rw [add_to_entry_eq (hslot i hi).1] at h
  have hai : a ≠ i := by omega
  have hah : a ≠ s.heapSize := by omega
  by_cases hcond : completeOrFull s (appendStep (s.heap i) st) = true
  · rw [if_pos hcond] at h
    cases h
    simp only [dropStore]
    rw [Function.update_noteq hai, Function.update_noteq hah]
  · rw [if_neg hcond] at h
    cases h
    simp only [plainStore]
    rw [Function.update_noteq hai]

/-- Value-level effect of the dropping branch on the drop-off queue: the
deep copy of the appended slot is appended, with `deque` eviction. -/
theorem queueVals_dropStore {s : TrajectoryStore} {i : Nat} {st : StepState}
    (hwf : WF s) (hi : i < s.num_keys) :
    queueVals (dropStore s i st)
      = dequeAppend s.num_keys (queueVals s) (appendStep (s.heap i) st) := by
  obtain ⟨hml, hnk, hqlen, hqmem, hnum, hslot⟩ := hwf
  have hih : i ≠ s.heapSize := by omega
  simp only [queueVals, dropStore, map_dequeAppend]
  congr 1
  · exact List.map_congr_left (fun a ha => by
      have := hqmem a ha
      rw [Function.update_noteq (by omega : a ≠ i),
        Function.update_noteq (by omega : a ≠ s.heapSize)])
  · rw [Function.update_noteq (Ne.symm hih), Function.update_same]

/-- Value-level effect of the non-dropping branch: the queue is unchanged. -/
theorem queueVals_plainStore {s : TrajectoryStore} {i : Nat} {st : StepState}
    (hwf : WF s) (hi : i < s.num_keys) :
    queueVals (plainStore s i st) = queueVals s := by
  obtain ⟨hml, hnk, hqlen, hqmem, hnum, hslot⟩ := hwf
  simp only [queueVals, plainStore]
  exact List.map_congr_left (fun a ha => by
    have := hqmem a ha
    rw [Function.update_noteq (by omega : a ≠ i)])

/-- One-call step specification: the call succeeds, and either the push
condition holds — the appended trajectory is deep-copied onto the
drop-off deque and the slot is reinitialised — or it does not and the
slot simply holds the appended trajectory, the queue untouched. -/
theorem add_step_spec {s : TrajectoryStore} {i : Nat} (st : StepState)
    (hwf : WF s) (hi : i < s.num_keys) :
    ∃ s', s.add_to_entry i st = Except.ok s' ∧
      (pushCondition s i st →
        s'.heap i = freshTrajectory s.max_trajectory_length (s.trajectory_counter + 1) ∧
        queueVals s' = dequeAppend s.num_keys (queueVals s) (appendStep (s.heap i) st)) ∧
      (¬ pushCondition s i st →
        s'.heap i = appendStep (s.heap i) st ∧
        s'.drop_off_queue = s.drop_off_queue ∧
        queueVals s' = queueVals s) := by
  obtain ⟨hcl, hcomp, hlen⟩ := hwf.2.2.2.2.2 i hi
  rw [add_to_entry_eq hcl]
  by_cases hp : pushCondition s i st
  · have hcond : completeOrFull s (appendStep (s.heap i) st) = true :=
      (completeOrFull_iff hcomp).mpr hp
    rw [if_pos hcond]
    refine ⟨dropStore s i st, rfl, fun _ => ⟨?_, queueVals_dropStore hwf hi⟩,
      fun h => absurd hp h⟩
    simp [dropStore, Function.update_same]
  · have hcond : ¬ completeOrFull s (appendStep (s.heap i) st) = true :=
      fun h => hp ((completeOrFull_iff hcomp).mp h)
    rw [if_neg hcond]
    refine ⟨plainStore s i st, rfl, fun h => absurd h hp,
      fun _ => ⟨?_, rfl, queueVals_plainStore hwf hi⟩⟩
    simp [plainStore, Function.update_same]

/-- A sequence of calls on a well-formed store succeeds, preserves
well-formedness and the configuration, and never shrinks the heap. -/
theorem runCalls_ok {i : Nat} (sts : List StepState) :
    ∀ {s : TrajectoryStore}, WF s → i < s.num_keys →
    ∃ s', runCalls i s sts = Except.ok s' ∧ WF s' ∧
      s'.num_keys = s.num_keys ∧
      s'.max_trajectory_length = s.max_trajectory_length ∧
      s.heapSize ≤ s'.heapSize := by
  induction sts with
  | nil =>
    intro s hwf hi
    exact ⟨s, rfl, hwf, rfl, rfl, le_refl _⟩
  | cons st rest ih =>
    intro s hwf hi
    obtain ⟨s1, h1, hwf1, hk1, hm1, hh1⟩ := hwf.add st hi
    obtain ⟨s', h', hwf', hk', hm', hh'⟩ := ih hwf1 (hk1 ▸ hi)
    refine ⟨s', ?_, hwf', by rw [hk', hk1], by rw [hm', hm1], le_trans hh1 hh'⟩
    simp [runCalls, h1, h']

/-- Addresses already on the drop-off queue are never written again by any
number of later calls (the queue holds deep copies at their own
addresses; the calls mutate only live slots and fresh addresses). -/
theorem runCalls_frame {i a : Nat} (sts : List StepState) :
    ∀ {s : TrajectoryStore}, WF s → i < s.num_keys →
    s.num_keys ≤ a → a < s.heapSize →
    ∃ s', runCalls i s sts = Except.ok s' ∧ s'.heap a = s.heap a := by
  induction sts with
  | nil =>
    intro s _ _ _ _
    exact ⟨s, rfl, rfl⟩
  | cons st rest ih =>
    intro s hwf hi ha1 ha2
    obtain ⟨s1, h1, hwf1, hk1, hm1, hh1⟩ := hwf.add st hi
    obtain ⟨s', h', hfr⟩ := ih hwf1 (hk1 ▸ hi) (hk1 ▸ ha1) (lt_of_lt_of_le ha2 hh1)
    refine ⟨s', ?_, ?_⟩
    · simp [runCalls, h1, h']
    · rw [hfr, add_to_entry_frame hwf hi ha1 ha2 h1]

theorem countSinceReset_cons (max c : Nat) (st : StepState) (rest : List StepState) :
    countSinceReset max c (st :: rest)
      = countSinceReset max
          (if (st.done && decide (0 < st.episode_step)) || decide (c + 1 = max)
            then 0 else c + 1) rest := rfl

/-- The boolean reset test of `countSinceReset` agrees with `pushCondition`. -/
theorem pushCondition_bool {s : TrajectoryStore} {i : Nat} {st : StepState} :
    ((st.done && decide (0 < st.episode_step))
        || decide ((s.heap i).current_length + 1 = s.max_trajectory_length)) = true
      ↔ pushCondition s i st := by
  simp [pushCondition]

/-- After a sequence of calls, the slot's `current_length` is the
spec-side count of calls since the last reset. -/
theorem runCalls_count {i : Nat} (sts : List StepState) :
    ∀ {s : TrajectoryStore}, WF s → i < s.num_keys →
    ∃ s', runCalls i s sts = Except.ok s' ∧
      (s'.heap i).current_length
        = countSinceReset s.max_trajectory_length (s.heap i).current_length sts := by
  induction sts with
  | nil =>
    intro s _ _
    exact ⟨s, rfl, rfl⟩
  | cons st rest ih =>
    intro s hwf hi
    obtain ⟨s1, h1, hpush, hplain⟩ := add_step_spec st hwf hi
    obtain ⟨s1', h1', hwf1, hk1, hm1, _⟩ := hwf.add st hi
    rw [h1] at h1'
    cases h1'
    obtain ⟨s', h', hcount⟩ := ih hwf1 (hk1 ▸ hi)
    refine ⟨s', by simp [runCalls, h1, h'], ?_⟩
    rw [hcount, hm1, countSinceReset_cons]
    by_cases hp : pushCondition s i st
    · obtain ⟨hslot, _⟩ := hpush hp
      rw [if_pos (pushCondition_bool.mpr hp), hslot]
      simp [freshTrajectory]
    · obtain ⟨hslot, _, _⟩ := hplain hp
      rw [if_neg (fun h => hp (pushCondition_bool.mp h)), hslot]
      simp [appendStep]

/-- The drop-off queue values after a sequence of calls: the last
`num_keys` elements of the old queue followed by the pushed copies. -/
theorem runDrops_spec {i : Nat} (sts : List StepState) :
    ∀ {s : TrajectoryStore}, WF s → i < s.num_keys →
    ∃ s' ds, runDrops i s sts = Except.ok (s', ds) ∧
      runCalls i s sts = Except.ok s' ∧
      queueVals s' = lastN s.num_keys (queueVals s ++ ds) := by
  induction sts with
  | nil =>
    intro s hwf hi
    refine ⟨s, [], rfl, rfl, ?_⟩
    rw [List.append_nil]
    exact (lastN_of_le (by simpa [queueVals] using hwf.2.2.1)).symm
  | cons st rest ih =>
    intro s hwf hi
    obtain ⟨s1, h1, hpush, hplain⟩ := add_step_spec st hwf hi
    obtain ⟨s1', h1', hwf1, hk1, hm1, _⟩ := hwf.add st hi
    rw [h1] at h1'
    cases h1'
    obtain ⟨s', ds, h', hcalls, hq⟩ := ih hwf1 (hk1 ▸ hi)
    obtain ⟨hcl, hcomp, _⟩ := hwf.2.2.2.2.2 i hi
    by_cases hp : pushCondition s i st
    · have hcond : completeOrFull s (appendStep (s.heap i) st) = true :=
        (completeOrFull_iff hcomp).mpr hp
      refine ⟨s', appendStep (s.heap i) st :: ds, ?_, ?_, ?_⟩
      · simp [runDrops, h1, h', hcond]
      · simp [runCalls, h1, hcalls]
      · rw [hq, hk1, (hpush hp).2, dequeAppend_eq_lastN, lastN_idem_append]
        simp
    · have hcond : completeOrFull s (appendStep (s.heap i) st) = false :=
        Bool.eq_false_iff.mpr (fun h => hp ((completeOrFull_iff hcomp).mp h))
      refine ⟨s', ds, ?_, ?_, ?_⟩
      · simp [runDrops, h1, h', hcond]
      · simp [runCalls, h1, hcalls]
      · rw [hq, hk1, (hplain hp).2.2]

end TrajectoryStore

open TrajectoryStore

/-! ### Claim theorems for the trajectory store -/

/-- C1: For every source id and every well-formed store state, a call to
`add_to_entry` pushes a trajectory onto the drop-off queue if and only if
the appended state has `done` true with `episode_step > 0`, or the append
made `current_length` reach the configured maximum trajectory length;
immediately after such a push the live slot for that source id has
`current_length = 0` and `complete = false`. -/
theorem add_to_entry_push_iff (s : TrajectoryStore) (i : Nat) (st : StepState)
    (hwf : WF s) (hi : i < s.num_keys) :
    ∃ s', s.add_to_entry i st = Except.ok s' ∧
      (pushCondition s i st →
        queueVals s' = dequeAppend s.num_keys (queueVals s) (appendStep (s.heap i) st) ∧
        (s'.heap i).current_length = 0 ∧ (s'.heap i).complete = false) ∧
      (¬ pushCondition s i st →
        s'.drop_off_queue = s.drop_off_queue ∧ queueVals s' = queueVals s) := by
  obtain ⟨s', h1, hpush, hplain⟩ := add_step_spec st hwf hi
  refine ⟨s', h1, fun hp => ?_, fun hp => ⟨(hplain hp).2.1, (hplain hp).2.2⟩⟩
  obtain ⟨hslot, hq⟩ := hpush hp
  exact ⟨hq, by simp [hslot, freshTrajectory], by simp [hslot, freshTrajectory]⟩

theorem add_to_entry_push_iff_witness :
    ∃ s', (TrajectoryStore.init 1 4).add_to_entry 0
        { obs := 5, done := true, episode_step := 3 } = Except.ok s' ∧
      queueVals s' = dequeAppend 1 (queueVals (TrajectoryStore.init 1 4))
        (appendStep ((TrajectoryStore.init 1 4).heap 0)
          { obs := 5, done := true, episode_step := 3 }) ∧
      (s'.heap 0).current_length = 0 ∧ (s'.heap 0).complete = false := by
  obtain ⟨s', h1, h2, _⟩ := add_to_entry_push_iff (TrajectoryStore.init 1 4) 0
    { obs := 5, done := true, episode_step := 3 } (by decide) (by decide)
  obtain ⟨hq, hc, hcomp⟩ := h2 (by decide)
  exact ⟨s', h1, hq, hc, hcomp⟩

/-- C2: Each call writes the state's fields at index `current_length`
(that is `appendStep`: `states.set current_length st` then
`current_length + 1`), and over any sequence of calls `current_length`
equals the count of calls since the last reset, never exceeding the
configured maximum. -/
theorem current_length_counts_calls (s : TrajectoryStore) (i : Nat)
    (sts : List StepState) (hwf : WF s) (hi : i < s.num_keys) :
    ∃ s', runCalls i s sts = Except.ok s' ∧
      (s'.heap i).current_length
        = countSinceReset s.max_trajectory_length (s.heap i).current_length sts ∧
      (s'.heap i).current_length ≤ s.max_trajectory_length ∧
      (∀ st', ¬ pushCondition s i st' →
        ∃ s1, s.add_to_entry i st' = Except.ok s1 ∧
          s1.heap i = appendStep (s.heap i) st') := by
  obtain ⟨s', h1, hcount⟩ := runCalls_count sts hwf hi
  obtain ⟨s'', h1', hwf', hk', hm', _⟩ := runCalls_ok sts hwf hi
  rw [h1] at h1'
  cases h1'
  refine ⟨s', h1, hcount, ?_, fun st' hp => ?_⟩
  · have hlt := (hwf'.2.2.2.2.2 i (hk' ▸ hi)).1
    rw [hm'] at hlt
    exact le_of_lt hlt
  · obtain ⟨s1, ha, _, hplain⟩ := add_step_spec st' hwf hi
    exact ⟨s1, ha, (hplain hp).1⟩

theorem current_length_counts_calls_witness :
    ∃ s', runCalls 0 (TrajectoryStore.init 1 4)
        [{ obs := 1, done := false, episode_step := 1 },
         { obs := 2, done := false, episode_step := 2 }] = Except.ok s' ∧
      (s'.heap 0).current_length
        = countSinceReset 4 0
            [{ obs := 1, done := false, episode_step := 1 },
             { obs := 2, done := false, episode_step := 2 }] ∧
      (s'.heap 0).current_length ≤ 4 := by
  obtain ⟨s', h1, h2, h3, _⟩ := current_length_counts_calls
    (TrajectoryStore.init 1 4) 0 _ (by decide) (by decide)
  exact ⟨s', h1, h2, h3⟩

/-- C4: The drop-off queue's length never exceeds its capacity `num_keys`,
and enqueuing past capacity evicts the oldest entry: after any sequence of
calls the queue holds exactly the last `num_keys` of (old queue followed
by the pushed completions), in FIFO order. -/
theorem drop_off_queue_ring_buffer (s : TrajectoryStore) (i : Nat)
    (sts : List StepState) (hwf : WF s) (hi : i < s.num_keys) :
    ∃ s' ds, runDrops i s sts = Except.ok (s', ds) ∧
      runCalls i s sts = Except.ok s' ∧
      s'.drop_off_queue.length ≤ s.num_keys ∧
      queueVals s' = lastN s.num_keys (queueVals s ++ ds) := by
  obtain ⟨s', ds, h1, h2, h3⟩ := runDrops_spec sts hwf hi
  obtain ⟨s'', h2', hwf', hk', _, _⟩ := runCalls_ok sts hwf hi
  rw [h2] at h2'
  cases h2'
  exact ⟨s', ds, h1, h2, by rw [← hk']; exact hwf'.2.2.1, h3⟩

theorem drop_off_queue_ring_buffer_witness :
    ∃ s' ds, runDrops 0 (TrajectoryStore.init 2 1)
        [{ obs := 1, done := false, episode_step := 0 },
         { obs := 2, done := false, episode_step := 0 },
         { obs := 3, done := false, episode_step := 0 }] = Except.ok (s', ds) ∧
      runCalls 0 (TrajectoryStore.init 2 1)
        [{ obs := 1, done := false, episode_step := 0 },
         { obs := 2, done := false, episode_step := 0 },
         { obs := 3, done := false, episode_step := 0 }] = Except.ok s' ∧
      s'.drop_off_queue.length ≤ 2 ∧
      queueVals s' = lastN 2 (queueVals (TrajectoryStore.init 2 1) ++ ds) := by
  obtain ⟨s', ds, h1, h2, h3, h4⟩ := drop_off_queue_ring_buffer
    (TrajectoryStore.init 2 1) 0 _ (by decide) (by decide)
  exact ⟨s', ds, h1, h2, h3, h4⟩

/-- C9: A trajectory placed on the drop-off queue is a deep copy: no later
`add_to_entry` call (and hence no in-place reset it performs) modifies the
value at an address already on the queue; on a push the live slot is only
reinitialised — fresh and strictly larger sequence number, zeroed state
fields, `current_length = 0` — while the copy of the appended trajectory
goes to the queue. -/
theorem dropped_trajectory_immutable (s : TrajectoryStore) (i : Nat)
    (hwf : WF s) (hi : i < s.num_keys) :
    (∀ sts : List StepState, ∃ s', runCalls i s sts = Except.ok s' ∧
      ∀ a ∈ s.drop_off_queue, s'.heap a = s.heap a) ∧
    (∀ st : StepState, pushCondition s i st →
      ∃ s', s.add_to_entry i st = Except.ok s' ∧
        queueVals s' = dequeAppend s.num_keys (queueVals s) (appendStep (s.heap i) st) ∧
        (s.heap i).global_trajectory_number < (s'.heap i).global_trajectory_number ∧
        (s'.heap i).current_length = 0 ∧
        (s'.heap i).complete = false ∧
        (s'.heap i).states = List.replicate s.max_trajectory_length zeroState) := by
  constructor
  · intro sts
    obtain ⟨s', h1, _, _, _, _⟩ := runCalls_ok sts hwf hi
    refine ⟨s', h1, fun a ha => ?_⟩
    obtain ⟨ha1, ha2⟩ := hwf.2.2.2.1 a ha
    obtain ⟨s'', h1', hfr⟩ := runCalls_frame sts hwf hi ha1 ha2
    rw [h1] at h1'
    cases h1'
    exact hfr
  · intro st hp
    obtain ⟨s', h1, hpush, _⟩ := add_step_spec st hwf hi
    obtain ⟨hslot, hq⟩ := hpush hp
    have hnum : (s.heap i).global_trajectory_number ≤ s.trajectory_counter :=
      hwf.2.2.2.2.1 i (Nat.lt_of_lt_of_le hi hwf.2.1)
    refine ⟨s', h1, hq, ?_, by simp [hslot, freshTrajectory],
      by simp [hslot, freshTrajectory], by simp [hslot, freshTrajectory]⟩
    rw [hslot]
    simp only [freshTrajectory]
    omega

theorem dropped_trajectory_immutable_witness :
    (∃ s', runCalls 0 (TrajectoryStore.init 1 2)
        [{ obs := 1, done := true, episode_step := 1 }] = Except.ok s' ∧
      ∀ a ∈ (TrajectoryStore.init 1 2).drop_off_queue,
        s'.heap a = (TrajectoryStore.init 1 2).heap a) ∧
    (∃ s', (TrajectoryStore.init 1 2).add_to_entry 0
        { obs := 7, done := true, episode_step := 5 } = Except.ok s' ∧
      queueVals s' = dequeAppend 1 (queueVals (TrajectoryStore.init 1 2))
        (appendStep ((TrajectoryStore.init 1 2).heap 0)
          { obs := 7, done := true, episode_step := 5 }) ∧
      ((TrajectoryStore.init 1 2).heap 0).global_trajectory_number
        < (s'.heap 0).global_trajectory_number ∧
      (s'.heap 0).current_length = 0 ∧
      (s'.heap 0).complete = false ∧
      (s'.heap 0).states = List.replicate 2 zeroState) := by
  have h := dropped_trajectory_immutable (TrajectoryStore.init 1 2) 0
    (by decide) (by decide)
  exact ⟨h.1 [{ obs := 1, done := true, episode_step := 1 }],
    h.2 { obs := 7, done := true, episode_step := 5 } (by decide)⟩

/-- C6 counterexample: with the slot at capacity, `add_to_entry` fails with
`IndexError` (the tensor write `states[key][current_length]` is out of
bounds), which is not the `OverflowError` the claim names. -/
theorem add_to_entry_full_not_overflow_error :
    fullSlotStore.add_to_entry 0 { obs := 0, done := false, episode_step := 1 }
      = Except.error PyError.indexError ∧
    (Except.error PyError.indexError : Except PyError TrajectoryStore)
      ≠ Except.error PyError.overflowError := by
  constructor
  · rfl
  · intro h
    injection h with h'
    exact PyError.noConfusion h'

/-- C6 (amended): calling `add_to_entry` when the slot's `current_length`
already equals the configured maximum trajectory length fails — with
`IndexError` (out-of-range tensor index), not `OverflowError`. -/
theorem add_to_entry_at_capacity_index_error (s : TrajectoryStore) (i : Nat)
    (st : StepState) (h : (s.heap i).current_length = s.max_trajectory_length) :
    s.add_to_entry i st = Except.error PyError.indexError := by
  unfold TrajectoryStore.add_to_entry
  rw [if_neg (by omega)]

theorem add_to_entry_at_capacity_index_error_witness :
    (fullSlotStore.heap 0).current_length = fullSlotStore.max_trajectory_length ∧
    fullSlotStore.add_to_entry 0 { obs := 0, done := true, episode_step := 2 }
      = Except.error PyError.indexError :=
  ⟨rfl, add_to_entry_at_capacity_index_error fullSlotStore 0
    { obs := 0, done := true, episode_step := 2 } rfl⟩

/-! ### Claim theorems for the watchdog and the training loop -/

/-- `check_dead_queues` never clears an already-set shutdown flag. -/
theorem check_dead_queues_shutdown_mono {w : WatchdogState}
    {qb qd qr T : Nat} (h : w.shutdown = true) :
    (check_dead_queues w qb qd qr T).shutdown = true := by
  dsimp only [check_dead_queues]
  split <;> split <;> simp [h]

/-- An unchanged snapshot increments the stall counter; the flag is set
when the new counter exceeds the threshold. -/
theorem check_dead_queues_unchanged {w : WatchdogState} {qb qd qr T : Nat}
    (hb : w.queue_batches_old = qb) (hd : w.queue_drop_off_old = qd)
    (hr : w.queue_rpcs_old = qr) :
    check_dead_queues w qb qd qr T
      = { w with
          dead_counter := w.dead_counter + 1
          shutdown := w.shutdown || decide (T < w.dead_counter + 1) } := by
  have hcnd : w.queue_batches_old = qb ∧ w.queue_drop_off_old = qd ∧
      w.queue_rpcs_old = qr := ⟨hb, hd, hr⟩
  dsimp only [check_dead_queues]
  rw [if_pos hcnd]
  split
  case isTrue h =>
    simp only at h
    simp [h]
  case isFalse h =>
    simp only at h
    simp [h]

/-- A changed snapshot zeroes the counter, stores the new snapshot and
leaves the shutdown flag alone. -/
theorem check_dead_queues_changed {w : WatchdogState} {qb qd qr T : Nat}
    (hdiff : ¬ (w.queue_batches_old = qb ∧ w.queue_drop_off_old = qd ∧
      w.queue_rpcs_old = qr)) :
    check_dead_queues w qb qd qr T
      = { w with
          dead_counter := 0
          queue_batches_old := qb
          queue_drop_off_old := qd
          queue_rpcs_old := qr } := by
  dsimp only [check_dead_queues]
  rw [if_neg hdiff]
  split
  case isTrue h => exact absurd h (by simp)
  case isFalse h => rfl

/-- C5: each watchdog check increments the stall counter when the three
depths match the snapshot and otherwise zeroes it and re-snapshots; in a
pipeline whose depths never change, the shutdown flag is true after
iteration `n` exactly when `n ≥ T + 1` — it fires at iteration `T + 1`
and not before. -/
theorem watchdog_fires_exactly (qb qd qr T : Nat) (w : WatchdogState)
    (h0 : w.dead_counter = 0) (h1 : w.shutdown = false)
    (h2 : w.queue_batches_old = qb) (h3 : w.queue_drop_off_old = qd)
    (h4 : w.queue_rpcs_old = qr) :
    (∀ n, (runWatchdog qb qd qr T w n).shutdown = true ↔ T + 1 ≤ n) ∧
    (∀ (w' : WatchdogState) (qb' qd' qr' : Nat),
      (w'.queue_batches_old = qb' ∧ w'.queue_drop_off_old = qd' ∧
          w'.queue_rpcs_old = qr' →
        (check_dead_queues w' qb' qd' qr' T).dead_counter
          = w'.dead_counter + 1) ∧
      (¬ (w'.queue_batches_old = qb' ∧ w'.queue_drop_off_old = qd' ∧
          w'.queue_rpcs_old = qr') →
        (check_dead_queues w' qb' qd' qr' T).dead_counter = 0 ∧
        (check_dead_queues w' qb' qd' qr' T).queue_batches_old = qb' ∧
        (check_dead_queues w' qb' qd' qr' T).queue_drop_off_old = qd' ∧
        (check_dead_queues w' qb' qd' qr' T).queue_rpcs_old = qr' ∧
        (check_dead_queues w' qb' qd' qr' T).shutdown = w'.shutdown)) := by
  constructor
  · have key : ∀ n, (runWatchdog qb qd qr T w n).dead_counter = n ∧
        (runWatchdog qb qd qr T w n).queue_batches_old = qb ∧
        (runWatchdog qb qd qr T w n).queue_drop_off_old = qd ∧
        (runWatchdog qb qd qr T w n).queue_rpcs_old = qr ∧
        (runWatchdog qb qd qr T w n).shutdown = decide (T < n) := by
      intro n
      induction n with
      | zero =>
        refine ⟨h0, h2, h3, h4, ?_⟩
        simp [runWatchdog, h1]
      | succ n ih =>
        obtain ⟨ic, ib, id, ir, ssd⟩ := ih
        simp only [runWatchdog]
        rw [check_dead_queues_unchanged ib id ir]
        refine ⟨by simp [ic], by simp [ib], by simp [id], by simp [ir], ?_⟩
        by_cases hT : T < n + 1
        · simp [ssd, ic, hT]
        · have hT' : ¬ T < n := fun h => hT (Nat.lt_succ_of_lt h)
          simp [ssd, ic, hT, hT']
    intro n
    rw [(key n).2.2.2.2]
    simp [Nat.succ_le_iff]
  · intro w' qb' qd' qr'
    constructor
    · intro hsame
      rw [check_dead_queues_unchanged hsame.1 hsame.2.1 hsame.2.2]
    · intro hdiff
      rw [check_dead_queues_changed hdiff]
      exact ⟨rfl, rfl, rfl, rfl, rfl⟩

theorem watchdog_fires_exactly_witness :
    (runWatchdog 5 6 7 3
      { dead_counter := 0, queue_batches_old := 5, queue_drop_off_old := 6,
        queue_rpcs_old := 7, shutdown := false } 4).shutdown = true ∧
    (runWatchdog 5 6 7 3
      { dead_counter := 0, queue_batches_old := 5, queue_drop_off_old := 6,
        queue_rpcs_old := 7, shutdown := false } 3).shutdown = false := by
  have h := watchdog_fires_exactly 5 6 7 3
    { dead_counter := 0, queue_batches_old := 5, queue_drop_off_old := 6,
      queue_rpcs_old := 7, shutdown := false } rfl rfl rfl rfl rfl
  constructor
  · exact (h.1 4).mpr (by decide)
  · have h3 := h.1 3
    cases hb : (runWatchdog 5 6 7 3
        { dead_counter := 0, queue_batches_old := 5, queue_drop_off_old := 6,
          queue_rpcs_old := 7, shutdown := false } 3).shutdown
    · rfl
    · exact absurd (h3.mp hb) (by decide)

/-- C10: the coordinator's shutdown flag is monotone — each `_loop`
iteration recomputes it as a disjunction that includes its previous value
and the watchdog only ever sets it, so once true it stays true across any
sequence of further iterations, whatever they observe. -/
theorem shutdown_monotone (T : Nat) (max_epoch total_steps max_time : Int)
    (w : WatchdogState) (obs : List LoopObs) (h : w.shutdown = true) :
    (run_loop_iterations T max_epoch total_steps max_time w obs).shutdown
      = true := by
  induction obs generalizing w with
  | nil => exact h
  | cons o rest ih =>
    simp only [run_loop_iterations]
    apply ih
    simp only [loop_iteration_shutdown]
    rw [check_dead_queues_shutdown_mono h]
    simp

theorem shutdown_monotone_witness :
    ({ dead_counter := 0, queue_batches_old := 0, queue_drop_off_old := 0,
        queue_rpcs_old := 0, shutdown := true } : WatchdogState).shutdown
      = true ∧
    (run_loop_iterations 100 10 10 10
      { dead_counter := 0, queue_batches_old := 0, queue_drop_off_old := 0,
        queue_rpcs_old := 0, shutdown := true }
      [{ queue_batches := 1, queue_drop_off := 2, queue_rpcs := 3,
         training_epoch := 4, training_steps := 5, runtime := 6 }]).shutdown
      = true :=
  ⟨rfl, shutdown_monotone 100 10 10 10 _ _ rfl⟩

/-! ### Claim theorems for the prefetch task -/

/-- C3 (documenting the code defect): with training-queue capacity 1 and
no consumer, the first batch enqueues and the queue depth stays 1; but the
second batch is lost after a single backoff sleep — the enqueue is never
re-attempted and the drop-after-`max_tries` branch is dead to any
`max_tries > 0`, contrary to the claimed bounded retry loop. -/
theorem prefetch_enqueue_no_retry :
    prefetch_enqueue ([] : List Nat) 1 10 50 = ([10], EnqueueOutcome.enqueued) ∧
    prefetch_enqueue [10] 1 20 50 = ([10], EnqueueOutcome.sleptOnce) ∧
    prefetch_enqueue [10] 1 20 1000000 = ([10], EnqueueOutcome.sleptOnce) ∧
    prefetch_enqueue [10] 1 20 0 = ([10], EnqueueOutcome.dropReturn) := by
  refine ⟨rfl, rfl, rfl, rfl⟩

/-- C7: the drain step never fails, pops either nothing (when fewer than
`batchsize_training` trajectories are queued) or exactly
`batchsize_training` oldest-first, and its result does not depend on the
logging callback — a failing `log_trajectory` is caught, never
propagated. -/
theorem prefetch_pop_spec (q : List Trajectory) (bs : Nat)
    (logf : Trajectory → Except Unit Unit) :
    ∃ popped rest, prefetch_pop q bs logf = Except.ok (popped, rest) ∧
      (popped = [] ∨ popped.length = bs) ∧
      (bs ≤ q.length → popped = q.take bs ∧ rest = q.drop bs) ∧
      (q.length < bs → popped = [] ∧ rest = q) ∧
      (∀ logf', prefetch_pop q bs logf' = prefetch_pop q bs logf) := by
  have key : ∀ (lf : Trajectory → Except Unit Unit) (n : Nat) (l : List Trajectory),
      n ≤ l.length → pop_and_log lf n l = Except.ok (l.take n, l.drop n) := by
    intro lf n
    induction n with
    | zero => intro l _; simp [pop_and_log]
    | succ n ih =>
      intro l hl
      cases l with
      | nil => simp at hl
      | cons t rest =>
        simp only [pop_and_log]
        rw [ih rest (by simpa using hl)]
        simp
  by_cases h : bs ≤ q.length
  · refine ⟨q.take bs, q.drop bs, ?_, Or.inr ?_, fun _ => ⟨rfl, rfl⟩,
      fun hlt => absurd h (by omega), fun logf' => ?_⟩
    · simp only [prefetch_pop]
      rw [if_pos h, key logf bs q h]
    · simp [List.length_take, Nat.min_eq_left h]
    · simp only [prefetch_pop]
      rw [if_pos h, if_pos h, key logf' bs q h, key logf bs q h]
  · refine ⟨[], q, ?_, Or.inl rfl, fun hle => absurd hle h,
      fun _ => ⟨rfl, rfl⟩, fun logf' => ?_⟩
    · simp only [prefetch_pop]
      rw [if_neg h]
    · simp only [prefetch_pop]
      rw [if_neg h, if_neg h]

theorem prefetch_pop_spec_witness :
    ∃ popped rest,
      prefetch_pop sampleTrajectories 2 failingLog = Except.ok (popped, rest) ∧
      popped = sampleTrajectories.take 2 ∧ rest = sampleTrajectories.drop 2 := by
  obtain ⟨p, r, hok, _, htake, _, _⟩ := prefetch_pop_spec sampleTrajectories 2 failingLog
  obtain ⟨hp, hr⟩ := htake (by decide)
  exact ⟨p, r, hok, hp, hr⟩

/-! ### Claim theorem for the request/response round trip -/

theorem getD_map_range {β : Type} (n : Nat) (g : Nat → β) (d : β) {idx : Nat}
    (h : idx < n) : ((List.range n).map g).getD idx d = g idx := by
  rw [List.getD_eq_getElem?_getD, List.getElem?_map, List.getElem?_range h]
  rfl

/-- C8: for every request position, the response produced by the batched
inference path carries that caller's own source id (so `Actor.act`'s
identity assertion holds) and exactly the batched model output at the
caller's position in the batch. -/
theorem submit_round_trip (eval_model : List Int → List Int)
    (caller_ids : List Nat) (obs : List Int) (shutdown : Bool) (idx : Nat)
    (h : idx < caller_ids.length) :
    (fan_out (process_batch eval_model caller_ids obs) shutdown).getD idx
        (0, 0, false, 0)
      = (caller_ids.getD idx 0,
          ((eval_model obs).getD idx 0, shutdown, caller_ids.getD idx 0)) ∧
    act_assert (caller_ids.getD idx 0)
      ((fan_out (process_batch eval_model caller_ids obs) shutdown).getD idx
        (0, 0, false, 0)).2 = true := by
  have hcomp : fan_out (process_batch eval_model caller_ids obs) shutdown
      = (List.range caller_ids.length).map
          (fun j => (caller_ids.getD j 0,
            ((eval_model obs).getD j 0, shutdown, caller_ids.getD j 0))) := by
    simp [fan_out, process_batch, List.map_map, Function.comp]
  rw [hcomp, getD_map_range _ _ _ h]
  exact ⟨rfl, by simp [act_assert]⟩

theorem submit_round_trip_witness :
    (1 : Nat) < ([3, 4] : List Nat).length ∧
    (fan_out (process_batch (fun l => l.map (fun x => x + 1)) [3, 4] [10, 20])
        false).getD 1 (0, 0, false, 0) = (4, (21, false, 4)) ∧
    act_assert 4 (21, false, 4) = true := by
  have h := submit_round_trip (fun l => l.map (fun x => x + 1)) [3, 4] [10, 20]
    false 1 (by decide)
  exact ⟨by decide, h.1.trans (by decide), by decide⟩

end PytorchSeedRL
